import Mathlib

/-!
Verification of the rust source analyzer (rust_parser.rs) against its
natural-language specification.

The program parses one Rust source file with the external syn crate and walks
the syntax tree once with a visitor (RustVisitor), accumulating declaration
records, a complexity score, a dependency list and side-effect tags into a
ParseResult, which is then serialized to JSON.

Shallow embedding choices:
- The external parser (syn) and token renderer (the quote crate) are capability
  boundaries.  The embedding's input is the already-parsed tree; wherever the
  source calls quote to reconstruct text (use items, typed parameters, call
  expressions), the tree node carries that rendered text as a string field.
  Modelled from the spec: the spec describes the rendered text as the literal
  textual form as written in the source (spec section 3, 4.1, 4.2), so the
  text fields are taken to hold the literal source text.
- The visitor methods of the source are embedded one-to-one, including the
  dispatch structure: the overridden visit_item runs its own match over the
  item kind and afterwards calls syn's default visit_item, which dispatches to
  the overridden per-kind visitors again (rust_parser.rs lines 73-88).
- The expression fragment models exactly the node kinds the overridden
  visit_expr distinguishes (If, Match, While, Loop, ForLoop, Call, everything
  else), each carrying the list of child expressions the default traversal
  would recurse into, in traversal order.  Item kinds outside
  fn/struct/trait/impl/use are modelled as leaves (the claims concern only
  these five).
- complexity is a u32 in the source; increments that would overflow abort the
  process in a debug build (no report is emitted), so for every emitted report
  Nat arithmetic is faithful.
-/

namespace RustAnalyzer

/-- FunctionInfo record, rust_parser.rs lines 19-27. -/
structure FunctionInfo where
  (name : String)
  (arity : Nat)
  (params : List String)
  (public : Bool)
  (async_fn : Option Bool)
deriving DecidableEq

/-- TypeInfo record, rust_parser.rs lines 29-38. -/
structure TypeInfo where
  (name : String)
  (kind : String)
  (public : Bool)
  (fields : Option (List String))
  (methods : Option (List String))
deriving DecidableEq

/-- DependencyInfo record, rust_parser.rs lines 40-45. -/
structure DependencyInfo where
  (function : String)
  (module : Option String)
deriving DecidableEq

/-- The accumulator, rust_parser.rs lines 7-17. -/
structure ParseResult where
  (functions : List FunctionInfo)
  (structs : List TypeInfo)
  (traits : List TypeInfo)
  (impls : List TypeInfo) (imports : List String)
  (dependencies : List DependencyInfo)
  (side_effects : List String)
  (complexity : Nat)
deriving DecidableEq

/-- RustVisitor::new, rust_parser.rs lines 52-65: all sequences empty,
complexity 1. -/
def initResult : ParseResult :=
  ⟨[], [], [], [], [], [], [], 1⟩

/-- syn Visibility as far as the source inspects it: is_public matches only
the Public variant (rust_parser.rs lines 67-69). -/
inductive Visibility where
  | publicV
  | restrictedV
  | inheritedV
deriving DecidableEq

/-- RustVisitor::is_public, rust_parser.rs lines 67-69. -/
def is_public : Visibility → Bool
  | .publicV => true
  | _ => false

mutual

/-- Expression nodes as distinguished by the overridden visit_expr
(rust_parser.rs lines 191-223).  Each constructor carries the child
expressions syn's default traversal recurses into, in order; eMatch keeps the
scrutinee children and the arms separate because the handler reads the number
of arms; eCall carries the rendered text of the call. -/
inductive Expr where
  | eIf (children : ExprList)
  | eMatch (scrut : ExprList) (arms : ArmList)
  | eWhile (children : ExprList)
  | eLoop (children : ExprList)
  | eForLoop (children : ExprList)
  | eCall (text : String) (children : ExprList)
  | eOther (children : ExprList)

/-- A list of expressions (sibling-encoded for structural recursion). -/
inductive ExprList where
  | nil
  | cons (e : Expr) (rest : ExprList)

/-- The arms of a match expression; each arm holds the expressions visited
inside it (guard and body), in order. -/
inductive ArmList where
  | nil
  | cons (arm : ExprList) (rest : ArmList)

end

/-- Number of arms of a match (m.arms.len() in the source). -/
def armLen : ArmList → Nat
  | .nil => 0
  | .cons _ rest => armLen rest + 1

/-- A character-list version of Rust str starts-with. -/
def leadingEq : List Char → List Char → Bool
  | [], _ => true
  | _ :: _, [] => false
  | a :: as, b :: bs => a == b && leadingEq as bs

/-- A character-list version of Rust str::contains for a literal pattern. -/
def containsSubList (pat : List Char) : List Char → Bool
  | [] => leadingEq pat []
  | c :: t => leadingEq pat (c :: t) || containsSubList pat t

/-- Rust str::contains (substring search). -/
def containsSub (hay pat : String) : Bool :=
  containsSubList pat.toList hay.toList

/-- complexity increment (rust_parser.rs lines 193-199). -/
def addComplexity (st : ParseResult) (n : Nat) : ParseResult :=
  { st with complexity := st.complexity + n }

/-- Dependency push for a call expression (rust_parser.rs lines 214-217). -/
def pushDependency (st : ParseResult) (txt : String) : ParseResult :=
  { st with dependencies := st.dependencies ++ [⟨txt, none⟩] }

/-- Side-effect detection on the rendered text of a call expression
(rust_parser.rs lines 204-212): a substring match pushes the io_operation tag
unless it is already present. -/
def checkSideEffect (st : ParseResult) (txt : String) : ParseResult :=
  if containsSub txt "println!" || containsSub txt "print!"
      || containsSub txt "write!" || containsSub txt "File::" then
    if !(st.side_effects.contains "io_operation") then
      { st with side_effects := st.side_effects ++ ["io_operation"] }
    else st
  else st

mutual

/-- The overridden visit_expr (rust_parser.rs lines 191-223): the handler for
the node kind runs first, then syn's default visit_expr recurses into every
child expression. -/
def visit_expr (st : ParseResult) : Expr → ParseResult
  | .eIf cs => visit_expr_list (addComplexity st 1) cs
  | .eMatch scrut arms =>
      visit_arm_list (visit_expr_list (addComplexity st (armLen arms)) scrut) arms
  | .eWhile cs => visit_expr_list (addComplexity st 1) cs
  | .eLoop cs => visit_expr_list (addComplexity st 1) cs
  | .eForLoop cs => visit_expr_list (addComplexity st 1) cs
  | .eCall txt cs => visit_expr_list (pushDependency (checkSideEffect st txt) txt) cs
  | .eOther cs => visit_expr_list st cs

/-- Visiting each expression of a list in order (default block and
sub-expression traversal). -/
def visit_expr_list (st : ParseResult) : ExprList → ParseResult
  | .nil => st
  | .cons e rest => visit_expr_list (visit_expr st e) rest

/-- Visiting the arms of a match in order (default visit_arm traversal). -/
def visit_arm_list (st : ParseResult) : ArmList → ParseResult
  | .nil => st
  | .cons arm rest => visit_arm_list (visit_expr_list st arm) rest

end

/-- A function parameter (syn FnArg): a receiver, or a typed pattern carrying
its rendered text (quote of the PatType, rust_parser.rs lines 99-104). -/
inductive FnArg where
  | receiver
  | typed (text : String)
deriving DecidableEq

/-- The parts of a syn Signature the source reads (rust_parser.rs
lines 91-92, 112). -/
structure Signature where
  (ident : String)
  (inputs : List FnArg)
  (asyncness : Bool)
deriving DecidableEq

/-- A free function item (syn ItemFn), body given as its expression list. -/
structure ItemFn where
  (vis : Visibility)
  (sig : Signature)
  (block : ExprList)

/-- A struct field: the source only reads the optional identifier
(rust_parser.rs line 130). -/
structure Field where
  (ident : Option String)
deriving DecidableEq

/-- A struct item (syn ItemStruct). -/
structure ItemStruct where
  (vis : Visibility)
  (ident : String)
  (fields : List Field)
deriving DecidableEq

/-- An item inside a trait body: a function-like item (with an optional
default body) or anything else (rust_parser.rs lines 149-152). -/
inductive TraitItem where
  | fnItem (name : String) (defaultBody : Option ExprList)
  | otherItem

/-- A trait item (syn ItemTrait). -/
structure ItemTrait where
  (vis : Visibility)
  (ident : String)
  (items : List TraitItem)

/-- An item inside an impl block: a method with its body, or anything else
(rust_parser.rs lines 176-179). -/
inductive ImplItem where
  | fnItem (name : String) (body : ExprList)
  | otherItem

/-- The self type of an impl block as far as the source inspects it
(rust_parser.rs lines 165-171): a path type with its optional last segment,
or any other type form. -/
inductive SelfTy where
  | pathTy (lastSegment : Option String)
  | otherTy
deriving DecidableEq

/-- An impl block item (syn ItemImpl). -/
structure ItemImpl where
  (self_ty : SelfTy)
  (items : List ImplItem)

/-- Top-level items as far as the overridden visit_item distinguishes them
(rust_parser.rs lines 73-88); a use item carries its rendered text; item kinds
with no nested visited constructs are the leaf otherItem. -/
inductive Item where
  | fnI (f : ItemFn)
  | structI (s : ItemStruct)
  | traitI (t : ItemTrait)
  | implI (i : ItemImpl)
  | useI (text : String)
  | otherI

/-- A parsed file: its list of top-level items (syn File). -/
structure SynFile where
  (items : List Item)

/-- The overridden visit_item_fn (rust_parser.rs lines 90-121): push one
FunctionInfo record, then visit the body block. -/
def visit_item_fn (st : ParseResult) (f : ItemFn) : ParseResult :=
  let params := f.sig.inputs.map fun a =>
    match a with
    | .receiver => "self"
    | .typed t => t
  let st1 : ParseResult :=
    { st with functions := st.functions ++
        [⟨f.sig.ident, f.sig.inputs.length, params, is_public f.vis,
          if f.sig.asyncness then some true else none⟩] }
  visit_expr_list st1 f.block

/-- The overridden visit_item_struct (rust_parser.rs lines 123-140): push one
TypeInfo record with the named fields; no recursion. -/
def visit_item_struct (st : ParseResult) (s : ItemStruct) : ParseResult :=
  { st with structs := st.structs ++
      [⟨s.ident, "struct", is_public s.vis,
        some (s.fields.filterMap Field.ident), none⟩] }

/-- The overridden visit_item_trait (rust_parser.rs lines 142-162): push one
TypeInfo record with the method names; no recursion into default bodies. -/
def visit_item_trait (st : ParseResult) (t : ItemTrait) : ParseResult :=
  { st with traits := st.traits ++
      [⟨t.ident, "trait", is_public t.vis, none,
        some (t.items.filterMap fun it =>
          match it with
          | .fnItem n _ => some n
          | .otherItem => none)⟩] }

/-- The overridden visit_item_impl (rust_parser.rs lines 164-189): push one
TypeInfo record with the method names; no recursion into method bodies. -/
def visit_item_impl (st : ParseResult) (i : ItemImpl) : ParseResult :=
  let name :=
    (match i.self_ty with
     | .pathTy o => o
     | .otherTy => none).getD "unknown"
  { st with impls := st.impls ++
      [⟨name, "impl", false, none,
        some (i.items.filterMap fun it =>
          match it with
          | .fnItem n _ => some n
          | .otherItem => none)⟩] }

/-- The overridden visit_item (rust_parser.rs lines 73-88): its own match over
the item kind runs the overridden per-kind visitors (and pushes the rendered
text of a use item), and the closing call to syn's default visit_item
dispatches to the same overridden per-kind visitors a second time (the default
visit_item_use reaches nothing overridden, so use items are processed once). -/
def visit_item (st : ParseResult) (item : Item) : ParseResult :=
  let st1 : ParseResult :=
    match item with
    | .fnI f => visit_item_fn st f
    | .structI s => visit_item_struct st s
    | .traitI t => visit_item_trait st t
    | .implI i => visit_item_impl st i
    | .useI text => { st with imports := st.imports ++ [text] }
    | .otherI => st
  match item with
  | .fnI f => visit_item_fn st1 f
  | .structI s => visit_item_struct st1 s
  | .traitI t => visit_item_trait st1 t
  | .implI i => visit_item_impl st1 i
  | .useI _ => st1
  | .otherI => st1

/-- syn's default visit_file: visit each top-level item in order. -/
def visit_file (st : ParseResult) (f : SynFile) : ParseResult :=
  f.items.foldl visit_item st

/-- The whole analysis of a parsed file: RustVisitor::new followed by
visit_file (rust_parser.rs lines 239-240). -/
def analyzeFile (f : SynFile) : ParseResult :=
  visit_file initResult f

/-- A lowercase hexadecimal digit (as serde_json prints control escapes). -/
def hexDigit (n : Nat) : Char :=
  if n < 10 then Char.ofNat (48 + n) else Char.ofNat (87 + n)

/-- JSON string escaping of one character, as serde_json performs it
(Modelled from the spec: the Report Emitter serializing to the exchange
format is a boundary outside src; this follows the JSON exchange format). -/
def escapeChar (c : Char) : String :=
  if c = '"' then "\\\""
  else if c = '\\' then "\\\\"
  else if c.toNat < 32 then
    match c.toNat with
    | 8 => "\\b"
    | 9 => "\\t"
    | 10 => "\\n"
    | 12 => "\\f"
    | 13 => "\\r"
    | n => "\\u00" ++ (hexDigit (n / 16)).toString ++ (hexDigit (n % 16)).toString
  else c.toString

/-- A JSON string literal. -/
def jsonString (s : String) : String :=
  "\"" ++ String.join (s.toList.map escapeChar) ++ "\""

/-- A JSON array from already-rendered elements. -/
def jsonArray (elems : List String) : String :=
  "[" ++ String.intercalate "," elems ++ "]"

/-- A JSON boolean. -/
def jsonBool (b : Bool) : String :=
  if b then "true" else "false"

/-- Serialization of a FunctionInfo record in declaration order; the async_fn
field is omitted entirely when absent (serde skip_serializing_if,
rust_parser.rs line 25). -/
def serializeFunctionInfo (f : FunctionInfo) : String :=
  "\x7b\"name\":" ++ jsonString f.name
    ++ ",\"arity\":" ++ toString f.arity
    ++ ",\"params\":" ++ jsonArray (f.params.map jsonString)
    ++ ",\"public\":" ++ jsonBool f.public
    ++ (match f.async_fn with
        | none => ""
        | some b => ",\"async_fn\":" ++ jsonBool b)
    ++ "\x7d"

/-- Serialization of a TypeInfo record; absent fields and methods lists are
omitted entirely (rust_parser.rs lines 34-37). -/
def serializeTypeInfo (t : TypeInfo) : String :=
  "\x7b\"name\":" ++ jsonString t.name
    ++ ",\"kind\":" ++ jsonString t.kind
    ++ ",\"public\":" ++ jsonBool t.public
    ++ (match t.fields with
        | none => ""
        | some l => ",\"fields\":" ++ jsonArray (l.map jsonString))
    ++ (match t.methods with
        | none => ""
        | some l => ",\"methods\":" ++ jsonArray (l.map jsonString))
    ++ "\x7d"

/-- Serialization of a DependencyInfo record; the module field is omitted when
absent (rust_parser.rs lines 43-44). -/
def serializeDependencyInfo (d : DependencyInfo) : String :=
  "\x7b\"function\":" ++ jsonString d.function
    ++ (match d.module with
        | none => ""
        | some m => ",\"module\":" ++ jsonString m)
    ++ "\x7d"

/-- Serialization of the whole accumulator in declaration order
(serde_json::to_string, rust_parser.rs line 242). -/
def serializeResult (r : ParseResult) : String :=
  "\x7b\"functions\":" ++ jsonArray (r.functions.map serializeFunctionInfo)
    ++ ",\"structs\":" ++ jsonArray (r.structs.map serializeTypeInfo)
    ++ ",\"traits\":" ++ jsonArray (r.traits.map serializeTypeInfo)
    ++ ",\"impls\":" ++ jsonArray (r.impls.map serializeTypeInfo)
    ++ ",\"imports\":" ++ jsonArray (r.imports.map jsonString)
    ++ ",\"dependencies\":" ++ jsonArray (r.dependencies.map serializeDependencyInfo)
    ++ ",\"side_effects\":" ++ jsonArray (r.side_effects.map jsonString)
    ++ ",\"complexity\":" ++ toString r.complexity
    ++ "\x7d"

/-- The observable outcome of one process invocation: exit status, the line
written to standard output (if any), the line written to standard error
(if any). -/
structure Outcome where
  (exitCode : Nat)
  (stdoutLine : Option String)
  (stderrLine : Option String)
deriving DecidableEq

/-- The single-line error object written to standard error
(rust_parser.rs lines 230, 248, 254, 259). -/
def errLine (msg : String) : String :=
  "\x7b\"error\": \"" ++ msg ++ "\"\x7d"

/-- The main entry point (rust_parser.rs lines 226-263).  Reading the file and
parsing it are external capabilities passed as functions; args is the full
argument vector including the program name (env::args).  With fewer than two
arguments the process prints the missing-argument error and exits 1; the
serde_json failure branch is unreachable because serialization of this data
model is total. -/
def mainRun (readFile : String → Except String String)
    (parseFile : String → Except String SynFile)
    (args : List String) : Outcome :=
  match args with
  | _ :: file_path :: _ =>
    match readFile file_path with
    | .ok content =>
      match parseFile content with
      | .ok tree => ⟨0, some (serializeResult (analyzeFile tree)), none⟩
      | .error e => ⟨1, none, some (errLine ("Parse error: " ++ e))⟩
    | .error e => ⟨1, none, some (errLine ("Failed to read file: " ++ e))⟩
  | _ => ⟨1, none, some (errLine "No file path provided")⟩

/-- The analysis pipeline from source text to serialized report, for a fixed
external parse capability. -/
def analyzeSource (parseFile : String → Except String SynFile)
    (content : String) : Except String String :=
  match parseFile content with
  | .ok tree => .ok (serializeResult (analyzeFile tree))
  | .error e => .error e

/-! Helper lemmas about the primitive accumulator mutations. -/

/-- The declaration-level components of the accumulator, bundled. -/
def declsOf (st : ParseResult) :
    List FunctionInfo × List TypeInfo × List TypeInfo × List TypeInfo × List String :=
  (st.functions, st.structs, st.traits, st.impls, st.imports)

@[simp]
theorem complexity_addComplexity (st : ParseResult) (n : Nat) :
    (addComplexity st n).complexity = st.complexity + n := rfl

@[simp]
theorem complexity_pushDependency (st : ParseResult) (t : String) :
    (pushDependency st t).complexity = st.complexity := rfl

@[simp]
theorem complexity_checkSideEffect (st : ParseResult) (t : String) :
    (checkSideEffect st t).complexity = st.complexity := by
  unfold checkSideEffect
  split
  · split
    · rfl
    · rfl
  · rfl

@[simp]
theorem declsOf_addComplexity (st : ParseResult) (n : Nat) :
    declsOf (addComplexity st n) = declsOf st := rfl

@[simp]
theorem declsOf_pushDependency (st : ParseResult) (t : String) :
    declsOf (pushDependency st t) = declsOf st := rfl

@[simp]
theorem declsOf_checkSideEffect (st : ParseResult) (t : String) :
    declsOf (checkSideEffect st t) = declsOf st := by
  unfold checkSideEffect
  split
  · split
    · rfl
    · rfl
  · rfl

@[simp]
theorem side_effects_addComplexity (st : ParseResult) (n : Nat) :
    (addComplexity st n).side_effects = st.side_effects := rfl

@[simp]
theorem side_effects_pushDependency (st : ParseResult) (t : String) :
    (pushDependency st t).side_effects = st.side_effects := rfl

mutual

/-- How much one expression node (with all its children) adds to the
complexity score when visited once. -/
def exprWeight : Expr → Nat
  | .eIf cs => 1 + listWeight cs
  | .eMatch scrut arms => armLen arms + listWeight scrut + armsWeight arms
  | .eWhile cs => 1 + listWeight cs
  | .eLoop cs => 1 + listWeight cs
  | .eForLoop cs => 1 + listWeight cs
  | .eCall _ cs => listWeight cs
  | .eOther cs => listWeight cs

/-- Total complexity contribution of a list of expressions. -/
def listWeight : ExprList → Nat
  | .nil => 0
  | .cons e rest => exprWeight e + listWeight rest

/-- Total complexity contribution of the arms of a match. -/
def armsWeight : ArmList → Nat
  | .nil => 0
  | .cons arm rest => listWeight arm + armsWeight rest

end

mutual

/-- Visiting an expression adds exactly its weight to the complexity score. -/
theorem complexity_visit_expr (st : ParseResult) :
    (e : Expr) → (visit_expr st e).complexity = st.complexity + exprWeight e
  | .eIf cs => by
      simp only [visit_expr, exprWeight, complexity_visit_expr_list, complexity_addComplexity]
      omega
  | .eMatch scrut arms => by
      simp only [visit_expr, exprWeight, complexity_visit_arm_list,
        complexity_visit_expr_list, complexity_addComplexity]
      omega
  | .eWhile cs => by
      simp only [visit_expr, exprWeight, complexity_visit_expr_list, complexity_addComplexity]
      omega
  | .eLoop cs => by
      simp only [visit_expr, exprWeight, complexity_visit_expr_list, complexity_addComplexity]
      omega
  | .eForLoop cs => by
      simp only [visit_expr, exprWeight, complexity_visit_expr_list, complexity_addComplexity]
      omega
  | .eCall txt cs => by
      simp only [visit_expr, exprWeight, complexity_visit_expr_list,
        complexity_pushDependency, complexity_checkSideEffect]
  | .eOther cs => by
      simp only [visit_expr, exprWeight, complexity_visit_expr_list]

/-- Visiting an expression list adds exactly its weight to the complexity
score. -/
theorem complexity_visit_expr_list (st : ParseResult) :
    (l : ExprList) → (visit_expr_list st l).complexity = st.complexity + listWeight l
  | .nil => by simp only [visit_expr_list, listWeight, Nat.add_zero]
  | .cons e rest => by
      simp only [visit_expr_list, listWeight, complexity_visit_expr_list,
        complexity_visit_expr]
      omega

/-- Visiting the arms of a match adds exactly their weight to the complexity
score. -/
theorem complexity_visit_arm_list (st : ParseResult) :
    (a : ArmList) → (visit_arm_list st a).complexity = st.complexity + armsWeight a
  | .nil => by simp only [visit_arm_list, armsWeight, Nat.add_zero]
  | .cons arm rest => by
      simp only [visit_arm_list, armsWeight, complexity_visit_arm_list,
        complexity_visit_expr_list]
      omega

end

mutual

/-- Expression-level visiting never touches the declaration-level sequences
(functions, structs, traits, impls, imports). -/
theorem declsOf_visit_expr (st : ParseResult) :
    (e : Expr) → declsOf (visit_expr st e) = declsOf st
  | .eIf cs => by
      simp only [visit_expr, declsOf_visit_expr_list, declsOf_addComplexity]
  | .eMatch scrut arms => by
      simp only [visit_expr, declsOf_visit_arm_list, declsOf_visit_expr_list,
        declsOf_addComplexity]
  | .eWhile cs => by
      simp only [visit_expr, declsOf_visit_expr_list, declsOf_addComplexity]
  | .eLoop cs => by
      simp only [visit_expr, declsOf_visit_expr_list, declsOf_addComplexity]
  | .eForLoop cs => by
      simp only [visit_expr, declsOf_visit_expr_list, declsOf_addComplexity]
  | .eCall txt cs => by
      simp only [visit_expr, declsOf_visit_expr_list, declsOf_pushDependency,
        declsOf_checkSideEffect]
  | .eOther cs => by
      simp only [visit_expr, declsOf_visit_expr_list]

/-- Visiting an expression list never touches the declaration-level
sequences. -/
theorem declsOf_visit_expr_list (st : ParseResult) :
    (l : ExprList) → declsOf (visit_expr_list st l) = declsOf st
  | .nil => by simp only [visit_expr_list]
  | .cons e rest => by
      simp only [visit_expr_list, declsOf_visit_expr_list, declsOf_visit_expr]

/-- Visiting match arms never touches the declaration-level sequences. -/
theorem declsOf_visit_arm_list (st : ParseResult) :
    (a : ArmList) → declsOf (visit_arm_list st a) = declsOf st
  | .nil => by simp only [visit_arm_list]
  | .cons arm rest => by
      simp only [visit_arm_list, declsOf_visit_arm_list, declsOf_visit_expr_list]

end

/-- The sole shape the side-effect tag sequence can have: empty, or the
single io_operation tag. -/
def IoTagOk (l : List String) : Prop :=
  l = [] ∨ l = ["io_operation"]

theorem ioTagOk_checkSideEffect (st : ParseResult) (txt : String)
    (h : IoTagOk st.side_effects) : IoTagOk (checkSideEffect st txt).side_effects := by
  unfold checkSideEffect
  split
  · split
    · next hg =>
        rcases h with h | h
        · right
          simp [h]
        · rw [h] at hg
          simp at hg
    · exact h
  · exact h

mutual

/-- Expression-level visiting preserves the shape invariant of the
side-effect tag sequence. -/
theorem ioTagOk_visit_expr (st : ParseResult) (h : IoTagOk st.side_effects) :
    (e : Expr) → IoTagOk (visit_expr st e).side_effects
  | .eIf cs => by
      simp only [visit_expr]
      exact ioTagOk_visit_expr_list _ (by simpa using h) cs
  | .eMatch scrut arms => by
      simp only [visit_expr]
      exact ioTagOk_visit_arm_list _
        (ioTagOk_visit_expr_list _ (by simpa using h) scrut) arms
  | .eWhile cs => by
      simp only [visit_expr]
      exact ioTagOk_visit_expr_list _ (by simpa using h) cs
  | .eLoop cs => by
      simp only [visit_expr]
      exact ioTagOk_visit_expr_list _ (by simpa using h) cs
  | .eForLoop cs => by
      simp only [visit_expr]
      exact ioTagOk_visit_expr_list _ (by simpa using h) cs
  | .eCall txt cs => by
      simp only [visit_expr]
      exact ioTagOk_visit_expr_list _
        (by simpa using ioTagOk_checkSideEffect st txt h) cs
  | .eOther cs => by
      simp only [visit_expr]
      exact ioTagOk_visit_expr_list _ h cs

/-- Visiting an expression list preserves the shape invariant of the
side-effect tag sequence. -/
theorem ioTagOk_visit_expr_list (st : ParseResult) (h : IoTagOk st.side_effects) :
    (l : ExprList) → IoTagOk (visit_expr_list st l).side_effects
  | .nil => by simpa only [visit_expr_list] using h
  | .cons e rest => by
      simp only [visit_expr_list]
      exact ioTagOk_visit_expr_list _ (ioTagOk_visit_expr st h e) rest

/-- Visiting match arms preserves the shape invariant of the side-effect tag
sequence. -/
theorem ioTagOk_visit_arm_list (st : ParseResult) (h : IoTagOk st.side_effects) :
    (a : ArmList) → IoTagOk (visit_arm_list st a).side_effects
  | .nil => by simpa only [visit_arm_list] using h
  | .cons arm rest => by
      simp only [visit_arm_list]
      exact ioTagOk_visit_arm_list _ (ioTagOk_visit_expr_list st h arm) rest

end

theorem functions_visit_expr_list (st : ParseResult) (l : ExprList) :
    (visit_expr_list st l).functions = st.functions := by
  have h := declsOf_visit_expr_list st l
  simp only [declsOf, Prod.mk.injEq] at h
  exact h.1

theorem structs_visit_expr_list (st : ParseResult) (l : ExprList) :
    (visit_expr_list st l).structs = st.structs := by
  have h := declsOf_visit_expr_list st l
  simp only [declsOf, Prod.mk.injEq] at h
  exact h.2.1

theorem traits_visit_expr_list (st : ParseResult) (l : ExprList) :
    (visit_expr_list st l).traits = st.traits := by
  have h := declsOf_visit_expr_list st l
  simp only [declsOf, Prod.mk.injEq] at h
  exact h.2.2.1

theorem impls_visit_expr_list (st : ParseResult) (l : ExprList) :
    (visit_expr_list st l).impls = st.impls := by
  have h := declsOf_visit_expr_list st l
  simp only [declsOf, Prod.mk.injEq] at h
  exact h.2.2.2.1

theorem imports_visit_expr_list (st : ParseResult) (l : ExprList) :
    (visit_expr_list st l).imports = st.imports := by
  have h := declsOf_visit_expr_list st l
  simp only [declsOf, Prod.mk.injEq] at h
  exact h.2.2.2.2

/-- Complexity contribution of one invocation of a per-kind item visitor:
only a function item visits a body. -/
def itemDelta : Item → Nat
  | .fnI f => listWeight f.block
  | _ => 0

@[simp]
theorem complexity_visit_item_fn (st : ParseResult) (f : ItemFn) :
    (visit_item_fn st f).complexity = st.complexity + listWeight f.block := by
  simp only [visit_item_fn, complexity_visit_expr_list]

/-- Each item is dispatched to its overridden visitor twice, so it
contributes twice its single-visit complexity delta. -/
theorem complexity_visit_item (st : ParseResult) (it : Item) :
    (visit_item st it).complexity = st.complexity + 2 * itemDelta it := by
  cases it with
  | fnI f =>
      simp only [visit_item, complexity_visit_item_fn, itemDelta]
      omega
  | structI s => simp [visit_item, itemDelta, visit_item_struct]
  | traitI t => simp [visit_item, itemDelta, visit_item_trait]
  | implI i => simp [visit_item, itemDelta, visit_item_impl]
  | useI u => simp [visit_item, itemDelta]
  | otherI => simp [visit_item, itemDelta]

theorem complexity_foldl_items (l : List Item) :
    ∀ st : ParseResult,
      (l.foldl visit_item st).complexity = st.complexity + 2 * (l.map itemDelta).sum := by
  induction l with
  | nil => intro st; simp
  | cons it t ih =>
      intro st
      simp only [List.foldl_cons, List.map_cons, List.sum_cons]
      rw [ih, complexity_visit_item]
      ring

/-- The final complexity is the baseline 1 plus twice the total weight of all
function bodies. -/
theorem complexity_analyzeFile (f : SynFile) :
    (analyzeFile f).complexity = 1 + 2 * (f.items.map itemDelta).sum := by
  unfold analyzeFile visit_file
  rw [complexity_foldl_items]
  rfl

theorem ioTagOk_visit_item_fn (st : ParseResult) (f : ItemFn)
    (h : IoTagOk st.side_effects) : IoTagOk (visit_item_fn st f).side_effects := by
  simp only [visit_item_fn]
  exact ioTagOk_visit_expr_list _ (by simpa using h) f.block

theorem ioTagOk_visit_item (st : ParseResult) (it : Item)
    (h : IoTagOk st.side_effects) : IoTagOk (visit_item st it).side_effects := by
  cases it with
  | fnI f =>
      exact ioTagOk_visit_item_fn _ f (ioTagOk_visit_item_fn st f h)
  | structI s => exact h
  | traitI t => exact h
  | implI i => exact h
  | useI u => exact h
  | otherI => exact h

theorem ioTagOk_foldl_items (l : List Item) :
    ∀ st : ParseResult, IoTagOk st.side_effects →
      IoTagOk (l.foldl visit_item st).side_effects := by
  induction l with
  | nil => intro st h; simpa using h
  | cons it t ih =>
      intro st h
      simp only [List.foldl_cons]
      exact ih _ (ioTagOk_visit_item st it h)

/-- A struct record as the source pushes it: a fields list present, a methods
list absent. -/
def GoodStructRec (t : TypeInfo) : Prop :=
  (∃ l, t.fields = some l) ∧ t.methods = none

/-- A trait or impl record as the source pushes it: a methods list present, a
fields list absent. -/
def GoodMethodRec (t : TypeInfo) : Prop :=
  t.fields = none ∧ ∃ l, t.methods = some l

/-- The shape invariant of the three TypeInfo sequences. -/
def ShapeOk (st : ParseResult) : Prop :=
  (∀ t ∈ st.structs, GoodStructRec t) ∧
  (∀ t ∈ st.traits, GoodMethodRec t) ∧
  (∀ t ∈ st.impls, GoodMethodRec t)

theorem shapeOk_visit_expr_list (st : ParseResult) (l : ExprList)
    (h : ShapeOk st) : ShapeOk (visit_expr_list st l) := by
  obtain ⟨h1, h2, h3⟩ := h
  refine ⟨?_, ?_, ?_⟩
  · rw [structs_visit_expr_list]; exact h1
  · rw [traits_visit_expr_list]; exact h2
  · rw [impls_visit_expr_list]; exact h3

theorem shapeOk_visit_item_fn (st : ParseResult) (f : ItemFn)
    (h : ShapeOk st) : ShapeOk (visit_item_fn st f) := by
  simp only [visit_item_fn]
  exact shapeOk_visit_expr_list _ f.block h

theorem shapeOk_visit_item_struct (st : ParseResult) (s : ItemStruct)
    (h : ShapeOk st) : ShapeOk (visit_item_struct st s) := by
  obtain ⟨h1, h2, h3⟩ := h
  refine ⟨?_, h2, h3⟩
  intro t ht
  simp only [visit_item_struct, List.mem_append, List.mem_singleton] at ht
  rcases ht with ht | ht
  · exact h1 t ht
  · subst ht
    exact ⟨⟨_, rfl⟩, rfl⟩

theorem shapeOk_visit_item_trait (st : ParseResult) (tr : ItemTrait)
    (h : ShapeOk st) : ShapeOk (visit_item_trait st tr) := by
  obtain ⟨h1, h2, h3⟩ := h
  refine ⟨h1, ?_, h3⟩
  intro t ht
  simp only [visit_item_trait, List.mem_append, List.mem_singleton] at ht
  rcases ht with ht | ht
  · exact h2 t ht
  · subst ht
    exact ⟨rfl, ⟨_, rfl⟩⟩

theorem shapeOk_visit_item_impl (st : ParseResult) (i : ItemImpl)
    (h : ShapeOk st) : ShapeOk (visit_item_impl st i) := by
  obtain ⟨h1, h2, h3⟩ := h
  refine ⟨h1, h2, ?_⟩
  intro t ht
  simp only [visit_item_impl, List.mem_append, List.mem_singleton] at ht
  rcases ht with ht | ht
  · exact h3 t ht
  · subst ht
    exact ⟨rfl, ⟨_, rfl⟩⟩

theorem shapeOk_visit_item (st : ParseResult) (it : Item)
    (h : ShapeOk st) : ShapeOk (visit_item st it) := by
  cases it with
  | fnI f => exact shapeOk_visit_item_fn _ f (shapeOk_visit_item_fn st f h)
  | structI s => exact shapeOk_visit_item_struct _ s (shapeOk_visit_item_struct st s h)
  | traitI t => exact shapeOk_visit_item_trait _ t (shapeOk_visit_item_trait st t h)
  | implI i => exact shapeOk_visit_item_impl _ i (shapeOk_visit_item_impl st i h)
  | useI u => exact h
  | otherI => exact h

theorem shapeOk_foldl_items (l : List Item) :
    ∀ st : ParseResult, ShapeOk st → ShapeOk (l.foldl visit_item st) := by
  induction l with
  | nil => intro st h; simpa using h
  | cons it t ih =>
      intro st h
      simp only [List.foldl_cons]
      exact ih _ (shapeOk_visit_item st it h)

mutual

/-- An expression containing no conditional, loop or match node anywhere. -/
def bfExpr : Expr → Bool
  | .eIf _ => false
  | .eMatch _ _ => false
  | .eWhile _ => false
  | .eLoop _ => false
  | .eForLoop _ => false
  | .eCall _ cs => bfList cs
  | .eOther cs => bfList cs

/-- An expression list containing no branching node anywhere. -/
def bfList : ExprList → Bool
  | .nil => true
  | .cons e rest => bfExpr e && bfList rest

end

/-- A trait body item whose default body (if any) is branch-free. -/
def bfTraitItem : TraitItem → Bool
  | .fnItem _ none => true
  | .fnItem _ (some b) => bfList b
  | .otherItem => true

/-- An impl body item whose body is branch-free. -/
def bfImplItem : ImplItem → Bool
  | .fnItem _ b => bfList b
  | .otherItem => true

/-- A top-level item containing no conditional, loop or match expression. -/
def bfItem : Item → Bool
  | .fnI f => bfList f.block
  | .traitI t => t.items.all bfTraitItem
  | .implI i => i.items.all bfImplItem
  | _ => true

/-- A file containing no conditional, loop or match expression. -/
def bfFile (f : SynFile) : Bool :=
  f.items.all bfItem

mutual

theorem exprWeight_of_bf : (e : Expr) → bfExpr e = true → exprWeight e = 0
  | .eIf cs => by intro h; simp [bfExpr] at h
  | .eMatch scrut arms => by intro h; simp [bfExpr] at h
  | .eWhile cs => by intro h; simp [bfExpr] at h
  | .eLoop cs => by intro h; simp [bfExpr] at h
  | .eForLoop cs => by intro h; simp [bfExpr] at h
  | .eCall txt cs => by
      intro h
      simp only [bfExpr] at h
      simp only [exprWeight]
      exact listWeight_of_bf cs h
  | .eOther cs => by
      intro h
      simp only [bfExpr] at h
      simp only [exprWeight]
      exact listWeight_of_bf cs h

theorem listWeight_of_bf : (l : ExprList) → bfList l = true → listWeight l = 0
  | .nil => by intro _; rfl
  | .cons e rest => by
      intro h
      simp only [bfList, Bool.and_eq_true] at h
      simp only [listWeight, exprWeight_of_bf e h.1, listWeight_of_bf rest h.2]

end

theorem itemDelta_of_bf (it : Item) (h : bfItem it = true) : itemDelta it = 0 := by
  cases it with
  | fnI f =>
      simp only [bfItem] at h
      simp only [itemDelta]
      exact listWeight_of_bf f.block h
  | structI s => rfl
  | traitI t => rfl
  | implI i => rfl
  | useI u => rfl
  | otherI => rfl

theorem itemDeltaSum_of_bf_list :
    ∀ l : List Item, l.all bfItem = true → (l.map itemDelta).sum = 0 := by
  intro l
  induction l with
  | nil => intro _; rfl
  | cons it t ih =>
      intro h
      simp only [List.all_cons, Bool.and_eq_true] at h
      simp only [List.map_cons, List.sum_cons, itemDelta_of_bf it h.1, ih h.2]

theorem itemDeltaSum_of_bf (f : SynFile) (h : bfFile f = true) :
    (f.items.map itemDelta).sum = 0 :=
  itemDeltaSum_of_bf_list f.items h

/-! The claims. -/

/-- The concrete input of claim C1: pub fn add(a: i32, b: i32) -> i32
with an if expression as its body (condition, then branch and else branch are
non-branching children). -/
def addExample : SynFile :=
  ⟨[Item.fnI ⟨Visibility.publicV,
      ⟨"add", [FnArg.typed "a: i32", FnArg.typed "b: i32"], false⟩,
      ExprList.cons
        (Expr.eIf (ExprList.cons (Expr.eOther ExprList.nil)
          (ExprList.cons (Expr.eOther ExprList.nil)
            (ExprList.cons (Expr.eOther ExprList.nil) ExprList.nil))))
        ExprList.nil⟩]⟩

/-- C1: the claim says the add example yields exactly one function record and
overall complexity 2.  The code instead yields the record twice and
complexity 3: visit_item runs its own match (one visit_item_fn call) and then
syn's default visit_item, which dispatches to the overridden visit_item_fn
again, so the record is pushed twice and the body (one conditional) is walked
twice.  The record itself carries name add, arity 2, params a: i32 and
b: i32, public true, as the claim states. -/
theorem c1_add_example :
    analyzeFile addExample =
      ⟨[⟨"add", 2, ["a: i32", "b: i32"], true, none⟩,
        ⟨"add", 2, ["a: i32", "b: i32"], true, none⟩],
       [], [], [], [], [], [], 3⟩ := rfl

/-- The concrete input of claim C2: a single function declaration fn f()
with an empty body. -/
def singleFnFile : SynFile :=
  ⟨[Item.fnI ⟨Visibility.inheritedV, ⟨"f", [], false⟩, ExprList.nil⟩]⟩

/-- C2: the claim says each declaration-level node produces exactly one
record.  The code appends two records per function, struct, trait and impl
declaration, because the overridden visit_item dispatches every item to its
overridden per-kind visitor twice (its own match and then syn's default
visit_item).  For a file with one function declaration the functions sequence
has two entries. -/
theorem c2_single_fn_two_records :
    (analyzeFile singleFnFile).functions =
      [⟨"f", 0, [], false, none⟩, ⟨"f", 0, [], false, none⟩] := rfl

/-- The concrete input of claim C3: a single function whose body is one match
expression with two arms and no other branching construct. -/
def matchExample : SynFile :=
  ⟨[Item.fnI ⟨Visibility.inheritedV, ⟨"f", [FnArg.typed "x: u8"], false⟩,
      ExprList.cons
        (Expr.eMatch (ExprList.cons (Expr.eOther ExprList.nil) ExprList.nil)
          (ArmList.cons (ExprList.cons (Expr.eOther ExprList.nil) ExprList.nil)
            (ArmList.cons (ExprList.cons (Expr.eOther ExprList.nil) ExprList.nil)
              ArmList.nil)))
        ExprList.nil⟩]⟩

/-- C3: the claim says a single match with N arms yields complexity 1 + N.
For N = 2 the code yields 5, not 3: the function body is visited twice (the
double dispatch of visit_item), and each visit adds the number of arms. -/
theorem c3_match_two_arms_complexity_five :
    (analyzeFile matchExample).complexity = 5 := rfl

/-- The concrete input of claim C4: a single function whose body is one call
expression g(1). -/
def callExample : SynFile :=
  ⟨[Item.fnI ⟨Visibility.inheritedV, ⟨"f", [], false⟩,
      ExprList.cons
        (Expr.eCall "g(1)" (ExprList.cons (Expr.eOther ExprList.nil) ExprList.nil))
        ExprList.nil⟩]⟩

/-- C4: the claim says every call expression contributes exactly one
DependencyInfo entry.  The code pushes two entries per call in a top-level
function body, because the body is visited twice (the double dispatch of
visit_item); calls inside impl method bodies contribute no entry at all. -/
theorem c4_single_call_two_entries :
    (analyzeFile callExample).dependencies =
      [⟨"g(1)", none⟩, ⟨"g(1)", none⟩] := rfl

/-- The concrete input of claim C5: an impl block for Foo with one method bar
whose body holds an if expression and a call g(). -/
def implExample : SynFile :=
  ⟨[Item.implI ⟨SelfTy.pathTy (some "Foo"),
      [ImplItem.fnItem "bar"
        (ExprList.cons (Expr.eIf ExprList.nil)
          (ExprList.cons (Expr.eCall "g()" ExprList.nil) ExprList.nil))]⟩]⟩

/-- C5: the claim says expression nodes inside impl (and default-bodied
trait) method bodies are visited like those in top-level function bodies.
The code never visits them: the overridden visit_item_impl only collects
method names and does not recurse, and because it overrides the trait method,
syn's default visit_item_impl (which would walk the bodies) never runs.  The
conditional and the call inside the method body leave complexity at 1 and the
dependency list empty, while the impl record itself is pushed twice. -/
theorem c5_impl_method_body_not_visited :
    (analyzeFile implExample).complexity = 1 ∧
    (analyzeFile implExample).dependencies = [] ∧
    (analyzeFile implExample).impls =
      [⟨"Foo", "impl", false, none, some ["bar"]⟩,
       ⟨"Foo", "impl", false, none, some ["bar"]⟩] := ⟨rfl, rfl, rfl⟩

/-- C6: for every input, the side-effect tag sequence is either empty or
exactly the single io_operation tag: the push is guarded by a membership test,
so the tag is appended at most once and never duplicated. -/
theorem c6_io_tag_at_most_once (f : SynFile) :
    (analyzeFile f).side_effects = [] ∨
    (analyzeFile f).side_effects = ["io_operation"] :=
  ioTagOk_foldl_items f.items initResult (Or.inl rfl)

/-- C7: invoked with no positional file-path argument (fewer than two entries
in the argument vector), the program exits with status 1, writes the
single-line error object with message No file path provided to standard
error, and writes nothing to standard output. -/
theorem c7_missing_argument (readFile : String → Except String String)
    (parseFile : String → Except String SynFile) (args : List String)
    (h : args.length < 2) :
    mainRun readFile parseFile args =
      ⟨1, none, some "\x7b\"error\": \"No file path provided\"\x7d"⟩ := by
  match args with
  | [] => rfl
  | [a] => rfl
  | a :: b :: t =>
      simp only [List.length_cons] at h
      omega

/-- Witness for C7 at the concrete argument vector holding only the program
name. -/
theorem c7_missing_argument_witness :
    mainRun (fun _ => Except.error "") (fun _ => Except.error "") ["prog"] =
      ⟨1, none, some "\x7b\"error\": \"No file path provided\"\x7d"⟩ :=
  c7_missing_argument (fun _ => Except.error "") (fun _ => Except.error "")
    ["prog"] (by decide)

/-- C8: the complexity score is at least 1 for every input (it starts at 1
and every visit only adds to it), and an input containing no conditional,
loop or match expression yields exactly 1. -/
theorem c8_complexity_lower_bound (f : SynFile) :
    1 ≤ (analyzeFile f).complexity ∧
    (bfFile f = true → (analyzeFile f).complexity = 1) := by
  have h := complexity_analyzeFile f
  constructor
  · omega
  · intro hbf
    rw [h, itemDeltaSum_of_bf f hbf]

/-- Witness for C8 at the concrete empty file, discharging the branch-free
hypothesis. -/
theorem c8_complexity_lower_bound_witness :
    (analyzeFile ⟨[]⟩).complexity = 1 :=
  (c8_complexity_lower_bound ⟨[]⟩).2 rfl

/-- C9: the analysis is deterministic: for a fixed parse capability, equal
input texts yield equal serialized reports (the pipeline is a pure
function). -/
theorem c9_determinism (parseFile : String → Except String SynFile)
    (s1 s2 : String) (h : s1 = s2) :
    analyzeSource parseFile s1 = analyzeSource parseFile s2 := by
  rw [h]

/-- Witness for C9 at a concrete parse capability and input text. -/
theorem c9_determinism_witness :
    analyzeSource (fun _ => Except.ok ⟨[]⟩) "pub fn id() \x7b\x7d" =
      analyzeSource (fun _ => Except.ok ⟨[]⟩) "pub fn id() \x7b\x7d" :=
  c9_determinism (fun _ => Except.ok ⟨[]⟩) _ _ rfl

/-- C10: every struct record in the output carries a fields list (possibly
empty) and no methods list; every trait and impl record carries a methods
list and no fields list. -/
theorem c10_struct_fields_trait_impl_methods (f : SynFile) :
    (∀ t ∈ (analyzeFile f).structs, (∃ l, t.fields = some l) ∧ t.methods = none) ∧
    (∀ t ∈ (analyzeFile f).traits, t.fields = none ∧ ∃ l, t.methods = some l) ∧
    (∀ t ∈ (analyzeFile f).impls, t.fields = none ∧ ∃ l, t.methods = some l) :=
  shapeOk_foldl_items f.items initResult
    ⟨by simp [initResult], by simp [initResult], by simp [initResult]⟩

/-- The concrete input for the C10 witness: a tuple struct with one unnamed
field, whose record carries the empty fields list. -/
def tupleStructFile : SynFile :=
  ⟨[Item.structI ⟨Visibility.publicV, "P", [⟨none⟩]⟩]⟩

/-- Witness for C10: the record of a tuple struct (no named fields) carries
the present-but-empty fields list and no methods list. -/
theorem c10_struct_fields_trait_impl_methods_witness :
    (∃ l, (⟨"P", "struct", true, some [], none⟩ : TypeInfo).fields = some l) ∧
    (⟨"P", "struct", true, some [], none⟩ : TypeInfo).methods = none :=
  (c10_struct_fields_trait_impl_methods tupleStructFile).1
    ⟨"P", "struct", true, some [], none⟩ (by decide)

end RustAnalyzer
